import Mathlib

/-!
Verification of the ScreenTimeAnalyzer ingestion-and-reconciliation core.

This file gives a shallow embedding of the repository's core logic and proves
(or refutes) the specified properties about it:

* `src/processing.py` — `process_device_snapshots`: rebuilding the usage
  intervals of one device from its time-ordered raw snapshots;
* `src/main.py` — `ingest_files`: device-name derivation from directory and
  file entries, snapshot deduplication keyed by `(device_id, timestamp)`,
  per-file error isolation, and triggering of reconstruction;
* `src/log_parser.py` — `parse_file` / `parse_chunk` / `parse_header_date`:
  turning a raw text export into timestamped `{app → cumulative seconds}`
  snapshots, with Python exception behaviour made explicit in an `Except`
  monad.

Modelling conventions:
* A naive Python `datetime` at second precision is modelled by `DTime`:
  a calendar-day index (`day : Int`) plus seconds since midnight
  (`sec : Nat`).  `datetime` comparison is lexicographic on (date, time),
  `d.date()` is `d.day`, and `datetime.combine(d.date(), time.min)` is
  `⟨d.day, 0⟩`.
* A Python dict `{app → seconds}` is modelled by an association list in
  insertion order; dict keys are unique, which appears as a `Nodup`
  hypothesis on the key list where a proof needs it.
* Python functions that can raise are modelled in `Except`; a
  `try/except ValueError` block corresponds to matching on the
  `.error .valueError` case.  Library primitives whose full behaviour is
  not re-implemented (`datetime.strptime`, `int(float(_))`) are parameters
  of the embedding, with the facts used about them stated as hypotheses.
-/

/-- A naive local timestamp at second precision: calendar day index and
seconds since midnight of that day.  Mirrors Python `datetime` for the
operations the code uses (ordering, `.date()` equality, midnight). -/
structure DTime where
  day : Int
  sec : Nat
deriving DecidableEq, Repr

/-- Strict chronological order on `DTime` (Python `datetime` `<`). -/
def dtLt (a b : DTime) : Prop :=
  a.day < b.day ∨ (a.day = b.day ∧ a.sec < b.sec)

/-- Chronological order on `DTime` (Python `datetime` `<=`). -/
def dtLe (a b : DTime) : Prop :=
  a.day < b.day ∨ (a.day = b.day ∧ a.sec ≤ b.sec)

instance (a b : DTime) : Decidable (dtLt a b) :=
  inferInstanceAs (Decidable (a.day < b.day ∨ (a.day = b.day ∧ a.sec < b.sec)))

instance (a b : DTime) : Decidable (dtLe a b) :=
  inferInstanceAs (Decidable (a.day < b.day ∨ (a.day = b.day ∧ a.sec ≤ b.sec)))

/-- `end_time − start_time` expressed in whole seconds
(Python `(b - a).total_seconds()` for second-precision datetimes). -/
def elapsedSeconds (a b : DTime) : Int :=
  (b.day - a.day) * 86400 + ((b.sec : Int) - (a.sec : Int))

/-- One row of `raw_snapshots` joined with its `raw_snapshot_entries`:
timestamp plus the per-app cumulative-seconds mapping (a Python dict,
modelled as an association list in insertion order). -/
structure RawSnapshot where
  timestamp : DTime
  entries : List (String × Int)
deriving DecidableEq, Repr

/-- One row of `usage_intervals` as inserted by `process_device_snapshots`. -/
structure UsageInterval where
  device_id : Nat
  start_time : DTime
  end_time : DTime
  app_name : String
  duration_seconds : Int
deriving DecidableEq, Repr

/-- The body of the loop of `process_device_snapshots`
(src/processing.py lines 84–114) for one consecutive snapshot pair
`(prev, curr)`: choose the baseline and start instant by comparing calendar
days, then emit one interval per app of `curr` whose delta against the
baseline is positive.  `base_usage.get(app, 0)` is `(List.lookup app …).getD 0`. -/
def pairIntervals (device_id : Nat) (prev curr : RawSnapshot) : List UsageInterval :=
  let step_start :=
    if prev.timestamp.day = curr.timestamp.day then prev.timestamp
    else ⟨curr.timestamp.day, 0⟩
  let base_usage :=
    if prev.timestamp.day = curr.timestamp.day then prev.entries else []
  curr.entries.filterMap fun e =>
    let delta := e.2 - ((List.lookup e.1 base_usage).getD 0)
    if 0 < delta then
      some ⟨device_id, step_start, curr.timestamp, e.1, delta⟩
    else
      none

/-- The loop of `process_device_snapshots` from index 1 on:
`prev` is `snapshots[i-1]`, the list argument holds `snapshots[i:]`. -/
def processFrom (device_id : Nat) : RawSnapshot → List RawSnapshot → List UsageInterval
  | _, [] => []
  | prev, curr :: rest =>
      pairIntervals device_id prev curr ++ processFrom device_id curr rest

/-- `process_device_snapshots` (src/processing.py): given the device's raw
snapshots ordered ascending by timestamp (the SQL `ORDER BY timestamp ASC`),
compute the full replacement list of usage intervals.  Index 0 is skipped
(`if i == 0: continue`). -/
def process_device_snapshots (device_id : Nat) : List RawSnapshot → List UsageInterval
  | [] => []
  | s :: rest => processFrom device_id s rest

/-- Spec-side baseline (from the claim's words): `prev`'s cumulative value
for the app, default 0, when the two snapshots share a calendar day;
0 otherwise. -/
def specBaseline (prev curr : RawSnapshot) (app : String) : Int :=
  if prev.timestamp.day = curr.timestamp.day then
    (List.lookup app prev.entries).getD 0
  else 0

/-- Spec-side start instant (from the claim's words): `prev`'s timestamp on
a shared calendar day, otherwise midnight of `curr`'s calendar day. -/
def specStart (prev curr : RawSnapshot) : DTime :=
  if prev.timestamp.day = curr.timestamp.day then prev.timestamp
  else ⟨curr.timestamp.day, 0⟩

/-- Spec-side reconstruction (from the claim's words): for each consecutive
pair `(prev, curr)` starting from index 1 and each app present in `curr`'s
mapping, emit `(device, start, curr.timestamp, app, delta)` iff
`delta = curr_seconds − baseline > 0`. -/
def specEmitted (device_id : Nat) (snaps : List RawSnapshot) : List UsageInterval :=
  (snaps.zip snaps.tail).flatMap fun pc =>
    pc.2.entries.filterMap fun e =>
      let delta := e.2 - specBaseline pc.1 pc.2 e.1
      if 0 < delta then
        some ⟨device_id, specStart pc.1 pc.2, pc.2.timestamp, e.1, delta⟩
      else
        none

/-- C2 counterexample input: first of two same-day snapshots one hour apart
(10:00, app "A" at 100 cumulative seconds). -/
def c2snap1 : RawSnapshot := ⟨⟨20497, 36000⟩, [("A", 100)]⟩

/-- C2 counterexample input: second snapshot (11:00, "A" at 250). -/
def c2snap2 : RawSnapshot := ⟨⟨20497, 39600⟩, [("A", 250)]⟩

/-- C3 counterexample input: snapshot at 23:50 of day 20497 with "A" at 500. -/
def c3snap1 : RawSnapshot := ⟨⟨20497, 85800⟩, [("A", 500)]⟩

/-- C3 counterexample input: snapshot at exactly midnight of the next day
with "A" at 30. -/
def c3snap2 : RawSnapshot := ⟨⟨20498, 0⟩, [("A", 30)]⟩

/-- C5 witness input: earlier same-day snapshot, apps "A" 300 / "B" 20. -/
def c5prev : RawSnapshot := ⟨⟨10, 100⟩, [("A", 300), ("B", 20)]⟩

/-- C5 witness input: later same-day snapshot where "A" moved backward to
100 (negative delta) while "B" advanced to 50. -/
def c5curr : RawSnapshot := ⟨⟨10, 200⟩, [("A", 100), ("B", 50)]⟩

/-- C8 witness input: three same-day snapshots of one device tracking "A". -/
def c8snaps : List RawSnapshot :=
  [⟨⟨0, 100⟩, [("A", 10)]⟩, ⟨⟨0, 200⟩, [("A", 30)]⟩, ⟨⟨0, 300⟩, [("A", 50)]⟩]

/-- The single interval reconstructed from `[c2snap1, c2snap2]`. -/
def c2iv : UsageInterval := ⟨1, ⟨20497, 36000⟩, ⟨20497, 39600⟩, "A", 150⟩

/-- ASCII whitespace as removed by Python `str.strip()`. -/
def isPySpace (c : Char) : Bool :=
  c = ' ' || c = '\t' || c = '\n' || c = '\r' || c = '\x0b' || c = '\x0c'

/-- Python `str.strip()` on a character list. -/
def pyStripL (l : List Char) : List Char :=
  ((l.dropWhile isPySpace).reverse.dropWhile isPySpace).reverse

/-- Does the second list start with the first (Python `str.startswith`)? -/
def startsWithL : List Char → List Char → Bool
  | [], _ => true
  | _ :: _, [] => false
  | p :: ps, c :: cs => p = c && startsWithL ps cs

/-- Does `p` occur as a contiguous substring (Python `p in s`)? -/
def hasSubstrL (p : List Char) : List Char → Bool
  | [] => p.isEmpty
  | c :: cs => startsWithL p (c :: cs) || hasSubstrL p cs

/-- Python `str.replace(p, r)` for a non-empty pattern `p`: replace every
non-overlapping occurrence, scanning left to right.  (With `p = []` this is
the identity; the code never calls `replace` with an empty pattern.) -/
def pyReplaceAllL (p r : List Char) : List Char → List Char
  | [] => []
  | c :: cs =>
    if p ≠ [] ∧ startsWithL p (c :: cs) = true then
      r ++ pyReplaceAllL p r (List.drop (p.length - 1) cs)
    else
      c :: pyReplaceAllL p r cs
termination_by l => l.length
decreasing_by
  all_goals simp
  all_goals omega

/-- Device name derived from a directory entry (src/main.py line 38):
`item.replace("Activity ", "").strip()` — `replace` removes every
occurrence of the substring, not only a leading prefix. -/
def deviceNameOfDirEntry (item : String) : String :=
  ⟨pyStripL (pyReplaceAllL "Activity ".data [] item.data)⟩

/-- Device name derived from a file entry's extensionless filename
(src/main.py lines 51–56): only when the name starts with `"Activity "` is
`replace`, again removing every occurrence, applied; otherwise the trimmed
name is used as is. -/
def deviceNameOfFileEntry (stem : String) : String :=
  if startsWithL "Activity ".data stem.data then
    ⟨pyStripL (pyReplaceAllL "Activity ".data [] stem.data)⟩
  else ⟨pyStripL stem.data⟩

/-- Spec-side device name for a directory entry (from the claim's words):
the name with one leading `"Activity "` stripped, the remainder unchanged
apart from trimming. -/
def specDeviceNameOfDirEntry (item : String) : String :=
  if startsWithL "Activity ".data item.data then ⟨pyStripL (item.data.drop 9)⟩
  else ⟨pyStripL item.data⟩

/-- The persistent state `ingest_files` manipulates: the `raw_snapshots`
rows (with their entries inlined), the `usage_intervals` rows, and the list
of files moved to the processed directory. -/
structure Store where
  snapshots : List (Nat × DTime × List (String × Int))
  intervals : List UsageInterval
  archived : List String
deriving DecidableEq, Repr

/-- Is a snapshot with key `(dev, ts)` present (the dedup SELECT of
src/main.py lines 88–92, backed by the UNIQUE(device_id, timestamp)
constraint)? -/
def hasSnapList (l : List (Nat × DTime × List (String × Int)))
    (dev : Nat) (ts : DTime) : Bool :=
  l.any fun r => r.1 == dev && r.2.1 == ts

/-- `hasSnapList` on a store's snapshot table. -/
def hasSnapshot (st : Store) (dev : Nat) (ts : DTime) : Bool :=
  hasSnapList st.snapshots dev ts

/-- src/main.py lines 87–111: insert one parsed snapshot with its entries
unless the `(device_id, timestamp)` key already exists; the Bool reports
whether a row was inserted. -/
def insertSnapshot (st : Store) (dev : Nat) (ts : DTime)
    (entries : List (String × Int)) : Store × Bool :=
  if hasSnapshot st dev ts then (st, false)
  else ({ st with snapshots := st.snapshots ++ [(dev, ts, entries)] }, true)

/-- src/main.py lines 84–111: the loop over one file's parsed snapshots;
the Bool is `file_has_new_data`. -/
def ingestFileSnaps (st : Store) (dev : Nat) :
    List (DTime × List (String × Int)) → Store × Bool
  | [] => (st, false)
  | s :: rest =>
    let r := insertSnapshot st dev s.1 s.2
    let r2 := ingestFileSnaps r.1 dev rest
    (r2.1, r.2 || r2.2)

/-- src/main.py lines 76–131: the per-file `try` block.  `parseF` models
`parse_file` (including any I/O or parse error as `.error`), `moveF` models
the archival move.  A parse error leaves the store untouched; a move error
happens after the inserts were committed, so they persist; in both cases
the `except Exception` at line 131 swallows the error.  The Bool is the
file's `file_has_new_data` contribution to `device_updated`. -/
def tryProcessFile
    (parseF : String → Except String (List (DTime × List (String × Int))))
    (moveF : String → Except String Unit) (dev : Nat) (st : Store)
    (fp : String) : Store × Bool :=
  match parseF fp with
  | .error _ => (st, false)
  | .ok snaps =>
    if snaps.isEmpty then (st, false)
    else
      let r := ingestFileSnaps st dev snaps
      match moveF fp with
      | .ok _ => ({ r.1 with archived := r.1.archived ++ [fp] }, r.2)
      | .error _ => (r.1, r.2)

/-- src/main.py lines 73–131: loop over one device's candidate files;
the Bool is `device_updated`. -/
def processFiles
    (parseF : String → Except String (List (DTime × List (String × Int))))
    (moveF : String → Except String Unit) (dev : Nat) (st : Store) :
    List String → Store × Bool
  | [] => (st, false)
  | fp :: rest =>
    let t := tryProcessFile parseF moveF dev st fp
    let r := processFiles parseF moveF dev t.1 rest
    (r.1, t.2 || r.2)

/-- src/main.py lines 65–137 for one device: process its files, then — at
line 137, *outside* the per-file `try` — run `process_device_snapshots`
iff `device_updated`.  `reconF` models that call with any storage error it
may raise; on success the device's intervals are deleted and replaced
(the full rebuild of processing.py lines 35 and 116–121). -/
def processDevice
    (parseF : String → Except String (List (DTime × List (String × Int))))
    (moveF : String → Except String Unit)
    (reconF : Nat → Store → Except String (List UsageInterval))
    (st : Store) (dev : Nat) (files : List String) : Except String Store :=
  let r := processFiles parseF moveF dev st files
  if r.2 then
    match reconF dev r.1 with
    | .ok ivs =>
        .ok { r.1 with
          intervals := (r.1.intervals.filter fun iv => iv.device_id != dev) ++ ivs }
    | .error e => .error e
  else .ok r.1

/-- `ingest_files` (src/main.py): iterate the device → files map.  An error
escaping `processDevice` (i.e. one raised by reconstruction) aborts the
whole run; per-file errors never do.  The directory scan building the map
(lines 29–60) is modelled by `deviceNameOfDirEntry` / `deviceNameOfFileEntry`
with the resulting map taken as input, and the final empty-folder cleanup
(lines 140–148) catches its own errors and touches no stored state. -/
def ingest_files
    (parseF : String → Except String (List (DTime × List (String × Int))))
    (moveF : String → Except String Unit)
    (reconF : Nat → Store → Except String (List UsageInterval)) :
    List (Nat × List String) → Store → Except String Store
  | [], st => .ok st
  | d :: rest, st =>
    match processDevice parseF moveF reconF st d.1 d.2 with
    | .ok st' => ingest_files parseF moveF reconF rest st'
    | .error e => .error e

/-- A parse function returning one fixed snapshot for every file. -/
def parseOneSnap : String → Except String (List (DTime × List (String × Int))) :=
  fun _ => .ok [(⟨0, 0⟩, [("A", 5)])]

/-- An archival move that always succeeds. -/
def moveOk : String → Except String Unit := fun _ => .ok ()

/-- A reconstruction that always raises (models e.g. a locked database in
`process_device_snapshots`). -/
def reconBoom : Nat → Store → Except String (List UsageInterval) :=
  fun _ _ => .error "reconstruction failure"

/-- A reconstruction that always succeeds with no intervals. -/
def reconNone : Nat → Store → Except String (List UsageInterval) :=
  fun _ _ => .ok []

/-- The empty store. -/
def emptyStore : Store := ⟨[], [], []⟩

/-- C6 witness store: one snapshot of device 2 at `⟨0, 0⟩` already present. -/
def c6stx : Store := ⟨[(2, ⟨0, 0⟩, [("A", 5)])], [], []⟩

/-- C6 witness snapshot list for double ingestion. -/
def c6snaps : List (DTime × List (String × Int)) := [(⟨0, 7⟩, [("A", 9)])]

/-- The store after the first `processDevice` run of the C6 witness. -/
def c6st1 : Store := ⟨[(2, ⟨0, 0⟩, [("A", 5)])], [], ["f1"]⟩

/-- The Python exception classes relevant to src/log_parser.py:
`float()` / `int()` raise `ValueError` on malformed or NaN input and
`OverflowError` when converting an infinite float to int; the
`try/except ValueError` at lines 92–97 catches only the former. -/
inductive PyErr where
  | valueError
  | overflowError
deriving DecidableEq, Repr

/-- Python `str.lower()` (ASCII case folding, all the inputs used here). -/
def pyLowerL (l : List Char) : List Char := l.map Char.toLower

/-- Python `str.split(sep)` for a one-character separator: split at every
occurrence, keeping empty pieces. -/
def splitOnCharL (sep : Char) : List Char → List (List Char)
  | [] => [[]]
  | c :: cs =>
    match splitOnCharL sep cs, decide (c = sep) with
    | r, true => [] :: r
    | [], false => [[c]]
    | h :: t, false => (c :: h) :: t

/-- Python dict assignment `d[k] = v`: update in place if the key exists
(keeping insertion order), else append. -/
def dictSet : List (String × Int) → String → Int → List (String × Int)
  | [], k, v => [(k, v)]
  | (k', v') :: rest, k, v =>
    if k' = k then (k, v) :: rest else (k', v') :: dictSet rest k v

/-- Everything before the last `'('` of the list. -/
def beforeLastParenL (l : List Char) : List Char :=
  ((l.reverse.dropWhile fun c => c ≠ '(').drop 1).reverse

/-- The app-name extraction of src/log_parser.py lines 82–86: the greedy
anchored pattern group-1-of `(.*)\s*\(.*\)$` matches exactly when the title
ends with `')'` and contains `'('`, and then captures the text before the
last `'('`; the result (or the whole title) is stripped. -/
def extractAppNameL (title : List Char) : List Char :=
  if title.getLast? = some ')' ∧ title.contains '(' then
    pyStripL (beforeLastParenL title)
  else pyStripL title

/-- The duration-token cleaning of src/log_parser.py lines 89–90:
lower-case, remove every `"sec"`, strip, then remove every space and
narrow no-break space. -/
def secondsToken (seconds_line : List Char) : List Char :=
  (pyStripL (pyReplaceAllL "sec".data [] (pyLowerL seconds_line))).filter
    fun c => c != ' ' && c != ' '

/-- The header cleaning of src/log_parser.py line 35: replace narrow
no-break spaces by plain spaces, drop every non-ASCII byte
(`encode('ascii', 'ignore')`), and strip. -/
def cleanHeaderLine (l : List Char) : List Char :=
  pyStripL ((l.map fun c => if c = ' ' then ' ' else c).filter
    fun c => c.toNat < 128)

/-- `parse_header_date` (src/log_parser.py lines 28–58) over an abstract
`strptime : format → cleaned line → Option DTime` (CPython's
`datetime.strptime`, whose `ValueError` is modelled as `none` since every
call site catches it): try the three formats in order, then the `" at "`
fallback, which retries the first format. -/
def parse_header_date (strptime : String → String → Option DTime)
    (line : String) : Option DTime :=
  let clean : String := ⟨cleanHeaderLine line.data⟩
  match strptime "%d %b %Y at %I:%M %p" clean with
  | some t => some t
  | none =>
    match strptime "%d %B %Y at %H:%M" clean with
    | some t => some t
    | none =>
      match strptime "%Y-%m-%d %H:%M:%S" clean with
      | some t => some t
      | none =>
        if hasSubstrL " at ".data clean.data then
          strptime "%d %b %Y at %I:%M %p" clean
        else none

/-- The comma-chunk loop of `parse_chunk` (src/log_parser.py lines 71–97).
`floatInt` is Python `int(float(s))`: `.ok n` on a finite parse, `.error
.valueError` on malformed or NaN input (caught: the entry is skipped),
any other error (OverflowError for infinite floats) propagates. -/
def parseChunkGo (floatInt : String → Except PyErr Int) :
    List (List Char) → List (String × Int) → Except PyErr (List (String × Int))
  | [], data => .ok data
  | ch :: rest, data =>
    let c := pyStripL ch
    if c.isEmpty then parseChunkGo floatInt rest data
    else
      match ((splitOnCharL '\n' c).map pyStripL).filter
          (fun l => !l.isEmpty) with
      | title :: seconds_line :: _ =>
        match floatInt ⟨secondsToken seconds_line⟩ with
        | .ok n => parseChunkGo floatInt rest
            (dictSet data ⟨extractAppNameL title⟩ n)
        | .error .valueError => parseChunkGo floatInt rest data
        | .error e => .error e
      | _ => parseChunkGo floatInt rest data

/-- `parse_chunk` (src/log_parser.py lines 60–98): join the block lines
with newlines, split on commas, and fold the two-line entries into a dict. -/
def parse_chunkE (floatInt : String → Except PyErr Int)
    (chunk_lines : List String) : Except PyErr (List (String × Int)) :=
  let body := String.intercalate "\n" chunk_lines
  parseChunkGo floatInt (splitOnCharL ',' body.data) []

/-- The line scan of `parse_file` (src/log_parser.py lines 118–149):
accumulate body lines under the current header, closing a block whenever a
new header is found or input ends; a block parsing to an empty dict is not
emitted; lines before the first header are ignored. -/
def scanLines (strptime : String → String → Option DTime)
    (floatInt : String → Except PyErr Int) :
    List String → Option DTime → List String →
    List (DTime × List (String × Int)) →
    Except PyErr (List (DTime × List (String × Int)))
  | [], cur, curLines, snaps =>
    match cur with
    | some ts =>
      match parse_chunkE floatInt curLines with
      | .ok data => .ok (if data.isEmpty then snaps else snaps ++ [(ts, data)])
      | .error e => .error e
    | none => .ok snaps
  | line :: rest, cur, curLines, snaps =>
    match parse_header_date strptime line with
    | some ts =>
      match cur with
      | some pts =>
        match parse_chunkE floatInt curLines with
        | .ok data =>
            scanLines strptime floatInt rest (some ts) []
              (if data.isEmpty then snaps else snaps ++ [(pts, data)])
        | .error e => .error e
      | none => scanLines strptime floatInt rest (some ts) [] snaps
    | none =>
      match cur with
      | some _ => scanLines strptime floatInt rest cur (curLines ++ [line]) snaps
      | none => scanLines strptime floatInt rest cur curLines snaps

/-- `parse_file` (src/log_parser.py lines 100–151) on the file's text
content (newline-separated; a `'\r'` before a `'\n'` is removed by the
per-line strip): strip, split into non-empty trimmed lines, and scan. -/
def parse_fileE (strptime : String → String → Option DTime)
    (floatInt : String → Except PyErr Int) (content : String) :
    Except PyErr (List (DTime × List (String × Int))) :=
  let c := pyStripL content.data
  if c.isEmpty then .ok []
  else
    let lines := (((splitOnCharL '\n' c).map pyStripL).filter
      (fun l => !l.isEmpty)).map fun l => (⟨l⟩ : String)
    scanLines strptime floatInt lines none [] []

/-- C7 failing input: a valid ISO header followed by a two-line entry whose
duration line is `"inf"` — `float("inf")` succeeds and `int(inf)` raises
`OverflowError`, which `except ValueError` does not catch. -/
def c7text : String := "2026-02-13 10:00:00\nGames\ninf"

/-- A concrete `strptime` behaviour: parses only the ISO format at the
C7 failing input's header (13 Feb 2026 10:00 as day 20497), `ValueError`
(`none`) otherwise. -/
def stpWitness : String → String → Option DTime := fun fmt s =>
  if fmt = "%Y-%m-%d %H:%M:%S" ∧ s = "2026-02-13 10:00:00" then
    some ⟨20497, 36000⟩
  else none

/-- A concrete `int(float(_))` behaviour: `OverflowError` on `"inf"`,
`ValueError` otherwise. -/
def floatIntWitness : String → Except PyErr Int := fun s =>
  if s = "inf" then .error .overflowError else .error .valueError

/-! ### MORE-DEFS-MARKER (definitions are inserted above this line) -/

/-! ### Theorems -/

theorem pairIntervals_eq_spec (device_id : Nat) (prev curr : RawSnapshot) :
    pairIntervals device_id prev curr =
      curr.entries.filterMap fun e =>
        let delta := e.2 - specBaseline prev curr e.1
        if 0 < delta then
          some ⟨device_id, specStart prev curr, curr.timestamp, e.1, delta⟩
        else
          none := by
  unfold pairIntervals specBaseline specStart
  by_cases h : prev.timestamp.day = curr.timestamp.day <;> simp [h]

theorem processFrom_eq_spec (device_id : Nat) (prev : RawSnapshot)
    (rest : List RawSnapshot) :
    processFrom device_id prev rest =
      ((prev :: rest).zip rest).flatMap fun pc =>
        pc.2.entries.filterMap fun e =>
          let delta := e.2 - specBaseline pc.1 pc.2 e.1
          if 0 < delta then
            some ⟨device_id, specStart pc.1 pc.2, pc.2.timestamp, e.1, delta⟩
          else
            none := by
  induction rest generalizing prev with
  | nil => simp [processFrom]
  | cons c r ih =>
      simp only [processFrom, List.zip_cons_cons, List.flatMap_cons, ih c,
        pairIntervals_eq_spec]

theorem process_eq_specEmitted (device_id : Nat) (snaps : List RawSnapshot) :
    process_device_snapshots device_id snaps = specEmitted device_id snaps := by
  cases snaps with
  | nil => rfl
  | cons s rest =>
      simp only [process_device_snapshots, specEmitted, List.tail_cons,
        processFrom_eq_spec]

/-- C1: reconstruction over a device's time-ordered snapshots emits exactly
the intervals described by the spec — for each consecutive pair and each app
of the current snapshot, an interval from the day-dependent start instant to
the current timestamp carrying `delta = curr − baseline`, emitted iff
`delta > 0` — and no others. -/
theorem c1_reconstruction_matches_spec (device_id : Nat) (snaps : List RawSnapshot) :
    process_device_snapshots device_id snaps = specEmitted device_id snaps :=
  process_eq_specEmitted device_id snaps

theorem lookup_eq_of_nodup_keys {l : List (String × Int)} {a : String} {b : Int}
    (hnd : (l.map Prod.fst).Nodup) (hmem : (a, b) ∈ l) :
    List.lookup a l = some b := by
  induction l with
  | nil => cases hmem
  | cons x xs ih =>
      simp only [List.map_cons, List.nodup_cons] at hnd
      rcases List.mem_cons.mp hmem with h1 | h1
      · rw [← h1]; simp [List.lookup]
      · have hne : (a == x.1) = false := by
          apply beq_eq_false_iff_ne.mpr
          intro heq; subst heq
          have h2 : (x.1, b).1 ∈ xs.map Prod.fst := List.mem_map_of_mem Prod.fst h1
          exact hnd.1 h2
        simp only [List.lookup, hne]
        exact ih hnd.2 h1

theorem mem_pairIntervals_iff {device_id : Nat} {prev curr : RawSnapshot}
    {iv : UsageInterval} :
    iv ∈ pairIntervals device_id prev curr ↔
      ∃ e ∈ curr.entries, 0 < e.2 - specBaseline prev curr e.1 ∧
        iv = ⟨device_id, specStart prev curr, curr.timestamp, e.1,
              e.2 - specBaseline prev curr e.1⟩ := by
  rw [pairIntervals_eq_spec]
  simp only [List.mem_filterMap]
  constructor
  · rintro ⟨e, he, hf⟩
    by_cases h : 0 < e.2 - specBaseline prev curr e.1
    · refine ⟨e, he, h, ?_⟩
      simp only [h, if_pos] at hf
      exact (Option.some_inj.mp hf).symm
    · simp [h] at hf
  · rintro ⟨e, he, h, hiv⟩
    exact ⟨e, he, by simp [h, hiv]⟩

/-- C2 counterexample: the reconstruction of the two same-day snapshots
`10:00 {A: 100}` and `11:00 {A: 250}` stores `duration_seconds = 150`
(the cumulative delta), while `end_time − start_time` is 3600 seconds, so
the claimed identity `duration_seconds = end − start` fails. -/
theorem c2_counterexample :
    process_device_snapshots 1 [c2snap1, c2snap2] =
        [⟨1, ⟨20497, 36000⟩, ⟨20497, 39600⟩, "A", 150⟩] ∧
      elapsedSeconds ⟨20497, 36000⟩ ⟨20497, 39600⟩ = 3600 ∧
      ¬ (150 : Int) = 3600 := by
  refine ⟨by decide, by decide, by decide⟩

/-- C2 amended: every interval produced by reconstruction carries as
`duration_seconds` the positive cumulative delta of its app between the
current snapshot and the pair's baseline (not `end_time − start_time`);
its `end_time` is the current snapshot's timestamp. -/
theorem c2_amended_duration_is_delta (device_id : Nat) (snaps : List RawSnapshot)
    (hnd : ∀ s ∈ snaps, (s.entries.map Prod.fst).Nodup)
    (iv : UsageInterval) (hiv : iv ∈ process_device_snapshots device_id snaps) :
    ∃ pc ∈ snaps.zip snaps.tail,
      iv.end_time = pc.2.timestamp ∧
      iv.duration_seconds =
        (List.lookup iv.app_name pc.2.entries).getD 0 -
          specBaseline pc.1 pc.2 iv.app_name ∧
      0 < iv.duration_seconds := by
  rw [process_eq_specEmitted] at hiv
  simp only [specEmitted, List.mem_flatMap, List.mem_filterMap] at hiv
  obtain ⟨pc, hpc, e, he, hf⟩ := hiv
  by_cases h : 0 < e.2 - specBaseline pc.1 pc.2 e.1
  · simp only [h, if_pos] at hf
    have hiv' := (Option.some_inj.mp hf).symm
    refine ⟨pc, hpc, ?_, ?_, ?_⟩
    · rw [hiv']
    · have hcurr : pc.2 ∈ snaps := List.of_mem_zip hpc |>.2 |> List.mem_of_mem_tail
      have hl : List.lookup e.1 pc.2.entries = some e.2 :=
        lookup_eq_of_nodup_keys (hnd pc.2 hcurr) he
      rw [hiv']
      simp [hl]
    · rw [hiv']; exact h
  · simp [h] at hf

theorem dtLe_refl (a : DTime) : dtLe a a := Or.inr ⟨rfl, Nat.le_refl _⟩

theorem dtLe_of_dtLt {a b : DTime} (h : dtLt a b) : dtLe a b := by
  unfold dtLt at h; unfold dtLe; omega

theorem dtLt_ne {a b : DTime} (h : dtLt a b) : a ≠ b := by
  intro heq; subst heq; unfold dtLt at h; omega

theorem dtLe_trans {a b c : DTime} (h1 : dtLe a b) (h2 : dtLe b c) : dtLe a c := by
  unfold dtLe at *; omega

/-- Everything `process_device_snapshots` guarantees about one interval of a
chronologically ordered pair: its endpoints, the sign of its duration, and
the only way `start_time = end_time` can happen (current snapshot exactly at
midnight of a new day). -/
theorem mem_pairIntervals_bounds {device_id : Nat} {prev curr : RawSnapshot}
    {iv : UsageInterval} (hlt : dtLt prev.timestamp curr.timestamp)
    (hiv : iv ∈ pairIntervals device_id prev curr) :
    iv.end_time = curr.timestamp ∧ dtLe prev.timestamp iv.start_time ∧
      dtLe iv.start_time iv.end_time ∧ 0 < iv.duration_seconds ∧
      (iv.start_time = iv.end_time → iv.end_time.sec = 0) := by
  obtain ⟨e, _, hpos, hiv'⟩ := mem_pairIntervals_iff.mp hiv
  subst hiv'
  simp only [specStart]
  by_cases hday : prev.timestamp.day = curr.timestamp.day
  · simp only [if_pos hday]
    exact ⟨trivial, dtLe_refl _, dtLe_of_dtLt hlt, hpos,
      fun heq => absurd heq (dtLt_ne hlt)⟩
  · have hdlt : prev.timestamp.day < curr.timestamp.day := by
      unfold dtLt at hlt; omega
    simp only [if_neg hday]
    exact ⟨trivial, Or.inl hdlt, Or.inr ⟨rfl, Nat.zero_le _⟩, hpos,
      fun heq => (congrArg DTime.sec heq).symm⟩

theorem mem_pairIntervals_end {device_id : Nat} {prev curr : RawSnapshot}
    {iv : UsageInterval} (hiv : iv ∈ pairIntervals device_id prev curr) :
    iv.end_time = curr.timestamp := by
  obtain ⟨e, _, _, hiv'⟩ := mem_pairIntervals_iff.mp hiv
  subst hiv'; rfl

/-- Invariants of every interval emitted from a strictly ascending snapshot
chain starting at `prev`. -/
theorem processFrom_mem_bounds (device_id : Nat) (prev : RawSnapshot)
    (rest : List RawSnapshot)
    (hch : List.Chain' (fun a b : RawSnapshot => dtLt a.timestamp b.timestamp)
      (prev :: rest))
    (iv : UsageInterval) (hiv : iv ∈ processFrom device_id prev rest) :
    dtLe prev.timestamp iv.start_time ∧ dtLe iv.start_time iv.end_time ∧
      0 < iv.duration_seconds ∧
      (iv.start_time = iv.end_time → iv.end_time.sec = 0) := by
  induction rest generalizing prev with
  | nil => cases hiv
  | cons c r ih =>
      rw [List.chain'_cons] at hch
      rcases List.mem_append.mp hiv with h | h
      · obtain ⟨_, hb⟩ := mem_pairIntervals_bounds hch.1 h
        exact hb
      · obtain ⟨h1, h2, h3, h4⟩ := ih c hch.2 h
        exact ⟨dtLe_trans (dtLe_of_dtLt hch.1) h1, h2, h3, h4⟩

/-- C3 counterexample: the snapshots 23:50 (day 20497, "A" at 500) and
exactly-midnight 00:00 (day 20498, "A" at 30) have pairwise distinct,
ascending timestamps, yet reconstruction emits an interval whose
`start_time` equals its `end_time`, so `end_time > start_time` fails
(duration is still positive). -/
theorem c3_counterexample :
    List.Chain' (fun a b : RawSnapshot => dtLt a.timestamp b.timestamp)
        [c3snap1, c3snap2] ∧
      process_device_snapshots 7 [c3snap1, c3snap2] =
        [⟨7, ⟨20498, 0⟩, ⟨20498, 0⟩, "A", 30⟩] ∧
      ¬ dtLt (⟨20498, 0⟩ : DTime) ⟨20498, 0⟩ := by
  refine ⟨by rw [List.chain'_pair]; decide, by decide, by decide⟩

/-- C3 amended: for a device whose snapshots are ordered ascending with
pairwise distinct timestamps, every reconstructed interval has
`duration_seconds > 0` and `start_time ≤ end_time`; `end_time > start_time`
can only fail when the current snapshot falls exactly at midnight
(`end_time.sec = 0`) of a calendar day later than the previous snapshot's. -/
theorem c3_amended_duration_pos (device_id : Nat) (snaps : List RawSnapshot)
    (hsort : List.Chain' (fun a b : RawSnapshot => dtLt a.timestamp b.timestamp)
      snaps)
    (iv : UsageInterval) (hiv : iv ∈ process_device_snapshots device_id snaps) :
    0 < iv.duration_seconds ∧ dtLe iv.start_time iv.end_time ∧
      (iv.start_time = iv.end_time → iv.end_time.sec = 0) := by
  cases snaps with
  | nil => cases hiv
  | cons s rest =>
      obtain ⟨_, h2, h3, h4⟩ :=
        processFrom_mem_bounds device_id s rest hsort iv hiv
      exact ⟨h3, h2, h4⟩

/-- C3 amended witness: instantiation at two same-day snapshots 100 s and
200 s after midnight with "A" advancing from 10 to 30. -/
theorem c3_amended_witness :
    0 < (⟨9, ⟨0, 100⟩, ⟨0, 200⟩, "A", 20⟩ : UsageInterval).duration_seconds ∧
      dtLe (⟨9, ⟨0, 100⟩, ⟨0, 200⟩, "A", 20⟩ : UsageInterval).start_time
        (⟨9, ⟨0, 100⟩, ⟨0, 200⟩, "A", 20⟩ : UsageInterval).end_time ∧
      ((⟨9, ⟨0, 100⟩, ⟨0, 200⟩, "A", 20⟩ : UsageInterval).start_time =
          (⟨9, ⟨0, 100⟩, ⟨0, 200⟩, "A", 20⟩ : UsageInterval).end_time →
        (⟨9, ⟨0, 100⟩, ⟨0, 200⟩, "A", 20⟩ : UsageInterval).end_time.sec = 0) :=
  c3_amended_duration_pos 9
    [⟨⟨0, 100⟩, [("A", 10)]⟩, ⟨⟨0, 200⟩, [("A", 30)]⟩]
    (by rw [List.chain'_pair]; decide)
    ⟨9, ⟨0, 100⟩, ⟨0, 200⟩, "A", 20⟩ (by decide)

/-- C4: a device with exactly one snapshot produces zero usage intervals —
the first snapshot of the ordered list is skipped (`if i == 0: continue`)
and never acts as the current snapshot of an emitted interval. -/
theorem c4_single_snapshot_no_intervals (device_id : Nat) (s : RawSnapshot) :
    process_device_snapshots device_id [s] = [] := rfl

/-- C2 amended witness: instantiation at the two same-day snapshots of the
counterexample; the emitted interval's duration is the delta 150. -/
theorem c2_amended_witness :
    ∃ pc ∈ [c2snap1, c2snap2].zip [c2snap1, c2snap2].tail,
      c2iv.end_time = pc.2.timestamp ∧
      c2iv.duration_seconds =
        (List.lookup c2iv.app_name pc.2.entries).getD 0 -
          specBaseline pc.1 pc.2 c2iv.app_name ∧
      0 < c2iv.duration_seconds :=
  c2_amended_duration_is_delta 1 [c2snap1, c2snap2] (by decide) c2iv (by decide)

theorem filterMap_eq_filterMap_filter {α β : Type} (f : α → Option β)
    (p : α → Bool) (l : List α) (h : ∀ e ∈ l, p e = false → f e = none) :
    l.filterMap f = (l.filter p).filterMap f := by
  induction l with
  | nil => rfl
  | cons x xs ih =>
      have ih' := ih (fun e he hpe => h e (List.mem_cons_of_mem _ he) hpe)
      by_cases hp : p x = true
      · rw [List.filter_cons_of_pos hp, List.filterMap_cons, List.filterMap_cons,
          ih']
      · have hfx : f x = none :=
          h x (List.mem_cons_self x xs) (Bool.not_eq_true _ |>.mp hp)
        rw [List.filter_cons_of_neg (by simpa using hp), List.filterMap_cons, hfx,
          ih']

/-- C5: if the delta of `app` between a consecutive snapshot pair is ≤ 0
(backward-moving or unchanged counter), the pair emits no interval for that
app, while all other apps of the pair are processed exactly as if the
offending entry were absent; being a total function, reconstruction
completes. -/
theorem c5_nonpositive_delta_dropped (device_id : Nat) (prev curr : RawSnapshot)
    (app : String) (hnd : (curr.entries.map Prod.fst).Nodup)
    (hdelta : (List.lookup app curr.entries).getD 0 -
      specBaseline prev curr app ≤ 0) :
    (∀ iv ∈ pairIntervals device_id prev curr, iv.app_name ≠ app) ∧
      pairIntervals device_id prev curr =
        pairIntervals device_id prev
          ⟨curr.timestamp, curr.entries.filter (fun e => e.1 != app)⟩ := by
  constructor
  · intro iv hiv happ
    obtain ⟨e, he, hpos, hiv'⟩ := mem_pairIntervals_iff.mp hiv
    have happ' : e.1 = app := by rw [← happ, hiv']
    have hl : List.lookup e.1 curr.entries = some e.2 :=
      lookup_eq_of_nodup_keys hnd he
    rw [happ'] at hl
    rw [hl] at hdelta
    rw [happ'] at hpos
    simp only [Option.getD_some] at hdelta
    omega
  · rw [pairIntervals_eq_spec, pairIntervals_eq_spec]
    show curr.entries.filterMap _ = (curr.entries.filter _).filterMap _
    apply filterMap_eq_filterMap_filter
    intro e he hpe
    have happ' : e.1 = app := by simpa using hpe
    have hl : List.lookup e.1 curr.entries = some e.2 :=
      lookup_eq_of_nodup_keys hnd he
    rw [happ'] at hl
    rw [hl] at hdelta
    simp only [Option.getD_some] at hdelta
    rw [if_neg]
    rw [happ']
    omega

/-- C5 witness: with same-day snapshots where "A" moves backward
(300 → 100) and "B" advances (20 → 50), the pair's output equals the output
with the "A" entry removed (hypotheses discharged at this concrete input). -/
theorem c5_witness :
    pairIntervals 3 c5prev c5curr =
      pairIntervals 3 c5prev
        ⟨c5curr.timestamp, c5curr.entries.filter (fun e => e.1 != "A")⟩ :=
  (c5_nonpositive_delta_dropped 3 c5prev c5curr "A" (by decide) (by decide)).2

/-- Within one snapshot pair, the emitted intervals carry pairwise distinct
app names (one interval per dict key of `curr`). -/
theorem pairIntervals_apps_ne {device_id : Nat} {prev curr : RawSnapshot}
    (hnd : (curr.entries.map Prod.fst).Nodup) :
    (pairIntervals device_id prev curr).Pairwise
      (fun a b => a.app_name ≠ b.app_name) := by
  rw [pairIntervals_eq_spec]
  have hpw : curr.entries.Pairwise (fun e e' => e.1 ≠ e'.1) :=
    List.pairwise_map.mp hnd
  refine List.Pairwise.filterMap _ ?_ hpw
  intro e e' hne b hb b' hb'
  have hb1 : b.app_name = e.1 := by
    simp only [Option.mem_def] at hb
    split at hb
    · rw [← Option.some_inj.mp hb]
    · exact Option.noConfusion hb
  have hb2 : b'.app_name = e'.1 := by
    simp only [Option.mem_def] at hb'
    split at hb'
    · rw [← Option.some_inj.mp hb']
    · exact Option.noConfusion hb'
  rw [hb1, hb2]; exact hne

/-- Emission order of `process_device_snapshots`: any interval of an earlier
pair ends no later than any interval of a later pair starts, and within one
pair the app names are distinct.  Combined relation: same app names force
chronologically disjoint interiors. -/
theorem processFrom_pairwise (device_id : Nat) (prev : RawSnapshot)
    (rest : List RawSnapshot)
    (hch : List.Chain' (fun a b : RawSnapshot => dtLt a.timestamp b.timestamp)
      (prev :: rest))
    (hnd : ∀ s ∈ prev :: rest, (s.entries.map Prod.fst).Nodup) :
    (processFrom device_id prev rest).Pairwise
      (fun a b => a.app_name = b.app_name → dtLe a.end_time b.start_time) := by
  induction rest generalizing prev with
  | nil => exact List.Pairwise.nil
  | cons c r ih =>
      rw [List.chain'_cons] at hch
      simp only [processFrom]
      rw [List.pairwise_append]
      refine ⟨?_, ?_, ?_⟩
      · exact (pairIntervals_apps_ne
          (hnd c (List.mem_cons_of_mem _ (List.mem_cons_self c r)))).imp
          (fun hne happ => absurd happ hne)
      · exact ih c hch.2 (fun s hs => hnd s (List.mem_cons_of_mem _ hs))
      · intro a ha b hb _
        rw [mem_pairIntervals_end ha]
        exact (processFrom_mem_bounds device_id c r hch.2 b hb).1

/-- C8: distinct intervals reconstructed for one device and one app never
overlap in a span of positive length — one ends no later than the other
starts (sharing at most the endpoint instant). -/
theorem c8_same_app_intervals_disjoint (device_id : Nat)
    (snaps : List RawSnapshot)
    (hsort : List.Chain' (fun a b : RawSnapshot => dtLt a.timestamp b.timestamp)
      snaps)
    (hnd : ∀ s ∈ snaps, (s.entries.map Prod.fst).Nodup)
    (i j : Fin (process_device_snapshots device_id snaps).length)
    (hij : i ≠ j)
    (happ : ((process_device_snapshots device_id snaps).get i).app_name =
      ((process_device_snapshots device_id snaps).get j).app_name) :
    dtLe ((process_device_snapshots device_id snaps).get i).end_time
        ((process_device_snapshots device_id snaps).get j).start_time ∨
      dtLe ((process_device_snapshots device_id snaps).get j).end_time
        ((process_device_snapshots device_id snaps).get i).start_time := by
  have hpw : (process_device_snapshots device_id snaps).Pairwise
      (fun a b => a.app_name = b.app_name → dtLe a.end_time b.start_time) := by
    cases snaps with
    | nil => exact List.Pairwise.nil
    | cons s rest => exact processFrom_pairwise device_id s rest hsort hnd
  rcases Nat.lt_trichotomy i.val j.val with h | h | h
  · exact Or.inl ((List.pairwise_iff_get.mp hpw i j h) happ)
  · exact absurd (Fin.ext h) hij
  · exact Or.inr ((List.pairwise_iff_get.mp hpw j i h) happ.symm)

/-- C8 witness: with three strictly ascending same-day snapshots of app "A",
the two reconstructed "A" intervals at positions 0 and 1 touch at most at an
endpoint. -/
theorem c8_witness :
    dtLe ((process_device_snapshots 1 c8snaps).get ⟨0, by decide⟩).end_time
        ((process_device_snapshots 1 c8snaps).get ⟨1, by decide⟩).start_time ∨
      dtLe ((process_device_snapshots 1 c8snaps).get ⟨1, by decide⟩).end_time
        ((process_device_snapshots 1 c8snaps).get ⟨0, by decide⟩).start_time :=
  c8_same_app_intervals_disjoint 1 c8snaps
    (by simp only [c8snaps]; rw [List.chain'_cons, List.chain'_pair]; decide)
    (by decide)
    ⟨0, by decide⟩ ⟨1, by decide⟩ (by decide) (by decide)

theorem startsWithL_append (p rest : List Char) :
    startsWithL p (p ++ rest) = true := by
  induction p with
  | nil => rfl
  | cons q qs ih => simp [startsWithL, ih]

theorem pyReplaceAllL_no_occur (p r l : List Char)
    (h : hasSubstrL p l = false) : pyReplaceAllL p r l = l := by
  induction l with
  | nil => simp [pyReplaceAllL]
  | cons c cs ih =>
      simp only [hasSubstrL, Bool.or_eq_false_iff] at h
      rw [pyReplaceAllL, if_neg, ih h.2]
      rintro ⟨_, hs⟩
      exact Bool.noConfusion (h.1.symm.trans hs)

theorem pyReplaceAllL_head_match (p r rest : List Char) (hp : p ≠ []) :
    pyReplaceAllL p r (p ++ rest) = r ++ pyReplaceAllL p r rest := by
  cases p with
  | nil => exact absurd rfl hp
  | cons q qs =>
      rw [List.cons_append, pyReplaceAllL, if_pos]
      · congr 1
        have hlen : (q :: qs).length - 1 = qs.length := by simp
        rw [hlen, List.drop_left]
      · exact ⟨hp, startsWithL_append (q :: qs) rest⟩

/-- C9 counterexample: the directory name `"Activity A Activity B"` has the
leading prefix, but the code removes *every* occurrence of `"Activity "`
(`str.replace`), yielding `"A B"`, while leading-prefix stripping would
yield `"A Activity B"`. -/
theorem c9_counterexample :
    deviceNameOfDirEntry "Activity A Activity B" = "A B" ∧
      specDeviceNameOfDirEntry "Activity A Activity B" = "A Activity B" ∧
      ("A B" : String) ≠ "A Activity B" := by
  refine ⟨?_, ?_, by decide⟩
  · simp +decide [deviceNameOfDirEntry, pyReplaceAllL, pyStripL, startsWithL]
  · simp +decide [specDeviceNameOfDirEntry, pyStripL, startsWithL]

/-- C9 amended: the device name is the entry name with *every* occurrence
of the substring `"Activity "` removed and the result trimmed (for file
entries, only when the extensionless name starts with `"Activity "`;
otherwise the trimmed name itself).  When the remainder after the leading
prefix contains no further occurrence, this coincides with the claim's
leading-prefix stripping. -/
theorem c9_amended_device_names (rest stem : List Char)
    (h1 : hasSubstrL "Activity ".data rest = false)
    (h2 : startsWithL "Activity ".data stem = false) :
    deviceNameOfDirEntry ⟨"Activity ".data ++ rest⟩ = ⟨pyStripL rest⟩ ∧
      deviceNameOfFileEntry ⟨"Activity ".data ++ rest⟩ = ⟨pyStripL rest⟩ ∧
      deviceNameOfFileEntry ⟨stem⟩ = ⟨pyStripL stem⟩ := by
  have hrepl : pyReplaceAllL "Activity ".data [] ("Activity ".data ++ rest) =
      rest := by
    rw [pyReplaceAllL_head_match _ _ _ (by decide),
      pyReplaceAllL_no_occur _ _ _ h1, List.nil_append]
  refine ⟨?_, ?_, ?_⟩
  · show (⟨pyStripL (pyReplaceAllL "Activity ".data []
      ("Activity ".data ++ rest))⟩ : String) = ⟨pyStripL rest⟩
    rw [hrepl]
  · show (if startsWithL "Activity ".data ("Activity ".data ++ rest) then
        (⟨pyStripL (pyReplaceAllL "Activity ".data []
          ("Activity ".data ++ rest))⟩ : String)
      else ⟨pyStripL ("Activity ".data ++ rest)⟩) = ⟨pyStripL rest⟩
    rw [if_pos (startsWithL_append "Activity ".data rest), hrepl]
  · show (if startsWithL "Activity ".data stem then
        (⟨pyStripL (pyReplaceAllL "Activity ".data [] stem)⟩ : String)
      else ⟨pyStripL stem⟩) = ⟨pyStripL stem⟩
    rw [if_neg]
    intro hs
    exact Bool.noConfusion (h2.symm.trans hs)

/-- C9 amended witness: instantiation at the directory name
`"Activity iPhone 13 mini"` and the file stem `"notes"`. -/
theorem c9_amended_witness :
    deviceNameOfDirEntry ⟨"Activity ".data ++ "iPhone 13 mini".data⟩ =
        ⟨pyStripL "iPhone 13 mini".data⟩ ∧
      deviceNameOfFileEntry ⟨"Activity ".data ++ "iPhone 13 mini".data⟩ =
        ⟨pyStripL "iPhone 13 mini".data⟩ ∧
      deviceNameOfFileEntry ⟨"notes".data⟩ = ⟨pyStripL "notes".data⟩ :=
  c9_amended_device_names "iPhone 13 mini".data "notes".data
    (by decide) (by decide)

theorem hasSnapshot_insert_mono {st : Store} {dev' : Nat} {ts' : DTime}
    {e : List (String × Int)} {dev : Nat} {ts : DTime}
    (h : hasSnapshot st dev ts = true) :
    hasSnapshot (insertSnapshot st dev' ts' e).1 dev ts = true := by
  unfold insertSnapshot
  split
  · exact h
  · simp only [hasSnapshot, hasSnapList] at h ⊢
    simp [List.any_append, h]

theorem insert_puts_key (st : Store) (dev : Nat) (ts : DTime)
    (e : List (String × Int)) :
    hasSnapshot (insertSnapshot st dev ts e).1 dev ts = true := by
  unfold insertSnapshot
  split
  · assumption
  · simp [hasSnapshot, hasSnapList, List.any_append]

theorem ingestFileSnaps_mono (dev : Nat)
    (snaps : List (DTime × List (String × Int))) (st : Store)
    {dev' : Nat} {ts' : DTime} (h : hasSnapshot st dev' ts' = true) :
    hasSnapshot (ingestFileSnaps st dev snaps).1 dev' ts' = true := by
  induction snaps generalizing st with
  | nil => exact h
  | cons s rest ih =>
      simp only [ingestFileSnaps]
      exact ih _ (hasSnapshot_insert_mono h)

theorem ingestFileSnaps_puts (dev : Nat)
    (snaps : List (DTime × List (String × Int))) (st : Store) :
    ∀ s ∈ snaps, hasSnapshot (ingestFileSnaps st dev snaps).1 dev s.1 = true := by
  induction snaps generalizing st with
  | nil => intro s hs; cases hs
  | cons x rest ih =>
      intro s hs
      simp only [ingestFileSnaps]
      rcases List.mem_cons.mp hs with hs | hs
      · subst hs
        exact ingestFileSnaps_mono dev rest _ (insert_puts_key st dev s.1 s.2)
      · exact ih _ s hs

theorem ingestFileSnaps_noop (dev : Nat)
    (snaps : List (DTime × List (String × Int))) (st : Store)
    (h : ∀ s ∈ snaps, hasSnapshot st dev s.1 = true) :
    ingestFileSnaps st dev snaps = (st, false) := by
  induction snaps with
  | nil => rfl
  | cons x rest ih =>
      have hx : insertSnapshot st dev x.1 x.2 = (st, false) := by
        unfold insertSnapshot
        rw [if_pos (h x (List.mem_cons_self x rest))]
      simp only [ingestFileSnaps, hx]
      rw [ih (fun s hs => h s (List.mem_cons_of_mem _ hs))]
      rfl

theorem tryProcessFile_mono
    (parseF : String → Except String (List (DTime × List (String × Int))))
    (moveF : String → Except String Unit) (dev : Nat) (st : Store)
    (fp : String) {dev' : Nat} {ts' : DTime}
    (h : hasSnapshot st dev' ts' = true) :
    hasSnapshot (tryProcessFile parseF moveF dev st fp).1 dev' ts' = true := by
  unfold tryProcessFile
  cases parseF fp with
  | error e => exact h
  | ok snaps =>
      by_cases he : snaps.isEmpty
      · simp only [he, if_pos]; exact h
      · simp only [he, if_neg, Bool.false_eq_true, not_false_iff]
        cases moveF fp with
        | ok u => exact ingestFileSnaps_mono dev snaps st h
        | error e => exact ingestFileSnaps_mono dev snaps st h

theorem tryProcessFile_puts
    (parseF : String → Except String (List (DTime × List (String × Int))))
    (moveF : String → Except String Unit) (dev : Nat) (st : Store)
    (fp : String) (snaps : List (DTime × List (String × Int)))
    (hp : parseF fp = .ok snaps) :
    ∀ s ∈ snaps, hasSnapshot (tryProcessFile parseF moveF dev st fp).1 dev s.1 = true := by
  intro s hs
  unfold tryProcessFile
  rw [hp]
  by_cases he : snaps.isEmpty
  · rw [List.isEmpty_iff.mp he] at hs; cases hs
  · simp only [he, if_neg, Bool.false_eq_true, not_false_iff]
    cases moveF fp with
    | ok u => exact ingestFileSnaps_puts dev snaps st s hs
    | error e => exact ingestFileSnaps_puts dev snaps st s hs

theorem processFiles_mono
    (parseF : String → Except String (List (DTime × List (String × Int))))
    (moveF : String → Except String Unit) (dev : Nat) (files : List String)
    (st : Store) {dev' : Nat} {ts' : DTime}
    (h : hasSnapshot st dev' ts' = true) :
    hasSnapshot (processFiles parseF moveF dev st files).1 dev' ts' = true := by
  induction files generalizing st with
  | nil => exact h
  | cons fp rest ih =>
      simp only [processFiles]
      exact ih _ (tryProcessFile_mono parseF moveF dev st fp h)

theorem processFiles_puts
    (parseF : String → Except String (List (DTime × List (String × Int))))
    (moveF : String → Except String Unit) (dev : Nat) (files : List String)
    (st : Store) :
    ∀ fp ∈ files, ∀ snaps, parseF fp = .ok snaps →
      ∀ s ∈ snaps,
        hasSnapshot (processFiles parseF moveF dev st files).1 dev s.1 = true := by
  induction files generalizing st with
  | nil => intro fp hfp; cases hfp
  | cons fp0 rest ih =>
      intro fp hfp snaps hp s hs
      simp only [processFiles]
      rcases List.mem_cons.mp hfp with hfp | hfp
      · subst hfp
        exact processFiles_mono parseF moveF dev rest _
          (tryProcessFile_puts parseF moveF dev st fp snaps hp s hs)
      · exact ih _ fp hfp snaps hp s hs

theorem tryProcessFile_noop
    (parseF : String → Except String (List (DTime × List (String × Int))))
    (moveF : String → Except String Unit) (dev : Nat) (st : Store)
    (fp : String)
    (h : ∀ snaps, parseF fp = .ok snaps →
      ∀ s ∈ snaps, hasSnapshot st dev s.1 = true) :
    (tryProcessFile parseF moveF dev st fp).1.snapshots = st.snapshots ∧
      (tryProcessFile parseF moveF dev st fp).1.intervals = st.intervals ∧
      (tryProcessFile parseF moveF dev st fp).2 = false := by
  unfold tryProcessFile
  cases hp : parseF fp with
  | error e => exact ⟨rfl, rfl, rfl⟩
  | ok snaps =>
      dsimp only
      by_cases he : snaps.isEmpty = true
      · rw [if_pos he]
        exact ⟨rfl, rfl, rfl⟩
      · rw [if_neg he]
        have hno : ingestFileSnaps st dev snaps = (st, false) :=
          ingestFileSnaps_noop dev snaps st (h snaps hp)
        cases moveF fp with
        | ok u =>
            simp [hno]
        | error e =>
            simp [hno]

theorem processFiles_noop
    (parseF : String → Except String (List (DTime × List (String × Int))))
    (moveF : String → Except String Unit) (dev : Nat) (files : List String)
    (st : Store)
    (h : ∀ fp ∈ files, ∀ snaps, parseF fp = .ok snaps →
      ∀ s ∈ snaps, hasSnapList st.snapshots dev s.1 = true) :
    (processFiles parseF moveF dev st files).1.snapshots = st.snapshots ∧
      (processFiles parseF moveF dev st files).1.intervals = st.intervals ∧
      (processFiles parseF moveF dev st files).2 = false := by
  induction files generalizing st with
  | nil => exact ⟨rfl, rfl, rfl⟩
  | cons fp0 rest ih =>
      obtain ⟨hs1, hs2, hs3⟩ := tryProcessFile_noop parseF moveF dev st fp0
        (fun snaps hp s hs => h fp0 (List.mem_cons_self fp0 rest) snaps hp s hs)
      have hrest := ih (tryProcessFile parseF moveF dev st fp0).1 (by
        intro fp hfp snaps hp s hs
        rw [hs1]
        exact h fp (List.mem_cons_of_mem _ hfp) snaps hp s hs)
      simp only [processFiles]
      refine ⟨hrest.1.trans hs1, hrest.2.1.trans hs2, ?_⟩
      rw [hs3, hrest.2.2]
      rfl

/-- C6: ingestion is idempotent.  (i) Insertion under an existing
`(device_id, timestamp)` key is a silent no-op reporting nothing new;
(ii) re-ingesting the same parsed snapshot list a second time leaves the
store unchanged and sets no dirty flag; (iii) after a completed device pass,
running the same pass again returns normally with identical snapshots and
intervals, for *any* reconstruction behaviour — i.e. reconstruction is not
triggered because no dirty flag is set. -/
theorem c6_ingestion_idempotent
    (stx : Store) (dev : Nat) (ts : DTime) (entries : List (String × Int))
    (snaps : List (DTime × List (String × Int)))
    (parseF : String → Except String (List (DTime × List (String × Int))))
    (moveF : String → Except String Unit)
    (reconF reconF' : Nat → Store → Except String (List UsageInterval))
    (files : List String) (st0 st1 : Store)
    (hkey : hasSnapshot stx dev ts = true)
    (h1 : processDevice parseF moveF reconF st0 dev files = .ok st1) :
    insertSnapshot stx dev ts entries = (stx, false) ∧
      ingestFileSnaps (ingestFileSnaps stx dev snaps).1 dev snaps =
        ((ingestFileSnaps stx dev snaps).1, false) ∧
      ∃ st2, processDevice parseF moveF reconF' st1 dev files = .ok st2 ∧
        st2.snapshots = st1.snapshots ∧ st2.intervals = st1.intervals := by
  refine ⟨?_, ?_, ?_⟩
  · unfold insertSnapshot
    rw [if_pos hkey]
  · exact ingestFileSnaps_noop dev snaps _
      (fun s hs => ingestFileSnaps_puts dev snaps stx s hs)
  · have hsnap1 : st1.snapshots =
        (processFiles parseF moveF dev st0 files).1.snapshots := by
      unfold processDevice at h1
      by_cases hu : (processFiles parseF moveF dev st0 files).2 = true
      · rw [if_pos hu] at h1
        cases hr : reconF dev (processFiles parseF moveF dev st0 files).1 with
        | ok ivs =>
            rw [hr] at h1
            cases h1
            rfl
        | error e => rw [hr] at h1; cases h1
      · rw [if_neg hu] at h1
        cases h1
        rfl
    have hcond : ∀ fp ∈ files, ∀ snaps', parseF fp = .ok snaps' →
        ∀ s ∈ snaps', hasSnapList st1.snapshots dev s.1 = true := by
      intro fp hfp snaps' hp s hs
      rw [hsnap1]
      exact processFiles_puts parseF moveF dev files st0 fp hfp snaps' hp s hs
    obtain ⟨hn1, hn2, hn3⟩ := processFiles_noop parseF moveF dev files st1 hcond
    refine ⟨(processFiles parseF moveF dev st1 files).1, ?_, hn1, hn2⟩
    simp [processDevice, hn3]

/-- C6 witness: a device-2 pass over file "f1" (parsed to one fixed
snapshot) has already completed with store `c6st1`; the repeated insertion,
double ingestion, and second device pass — even under an
always-failing reconstruction — are no-ops. -/
theorem c6_witness :
    insertSnapshot c6stx 2 ⟨0, 0⟩ [("B", 1)] = (c6stx, false) ∧
      ingestFileSnaps (ingestFileSnaps c6stx 2 c6snaps).1 2 c6snaps =
        ((ingestFileSnaps c6stx 2 c6snaps).1, false) ∧
      ∃ st2, processDevice parseOneSnap moveOk reconBoom c6st1 2 ["f1"] =
          .ok st2 ∧
        st2.snapshots = c6st1.snapshots ∧ st2.intervals = c6st1.intervals :=
  c6_ingestion_idempotent c6stx 2 ⟨0, 0⟩ [("B", 1)] c6snaps parseOneSnap
    moveOk reconNone reconBoom ["f1"] emptyStore c6st1 (by decide) rfl

/-- C10 counterexample: with a file that parses to one new snapshot and a
reconstruction that raises (e.g. a storage error in
`process_device_snapshots`, which src/main.py line 137 calls *outside* the
per-file `try`), the error propagates out of `ingest_files`. -/
theorem c10_counterexample :
    ingest_files parseOneSnap moveOk reconBoom [(1, ["f1"])] emptyStore =
      .error "reconstruction failure" := rfl

/-- C10 amended: every error raised inside the per-file block — parsing,
persisting, or archiving a file — is caught and processing continues, so
whenever reconstruction itself never raises, `ingest_files` returns
normally for every input; an error raised by reconstruction, however, is
not caught and propagates past `ingest_files` (see the counterexample). -/
theorem c10_amended_only_recon_escapes
    (reconF : Nat → Store → Except String (List UsageInterval))
    (hr : ∀ d st, ∃ ivs, reconF d st = .ok ivs)
    (parseF : String → Except String (List (DTime × List (String × Int))))
    (moveF : String → Except String Unit)
    (devices : List (Nat × List String)) (st0 : Store) :
    ∃ st', ingest_files parseF moveF reconF devices st0 = .ok st' := by
  induction devices generalizing st0 with
  | nil => exact ⟨st0, rfl⟩
  | cons d rest ih =>
      have hdev : ∃ st1, processDevice parseF moveF reconF st0 d.1 d.2 =
          .ok st1 := by
        unfold processDevice
        by_cases hu : (processFiles parseF moveF d.1 st0 d.2).2 = true
        · rw [if_pos hu]
          obtain ⟨ivs, hivs⟩ := hr d.1 (processFiles parseF moveF d.1 st0 d.2).1
          rw [hivs]
          exact ⟨_, rfl⟩
        · rw [if_neg hu]
          exact ⟨_, rfl⟩
      obtain ⟨st1, hst1⟩ := hdev
      obtain ⟨st', hst'⟩ := ih st1
      refine ⟨st', ?_⟩
      unfold ingest_files
      rw [hst1]
      exact hst'

/-- C10 amended witness: with an always-succeeding reconstruction, the run
over one device and one file returns normally. -/
theorem c10_amended_witness :
    ∃ st', ingest_files parseOneSnap moveOk reconNone [(1, ["f1"])] emptyStore =
      .ok st' :=
  c10_amended_only_recon_escapes reconNone (fun _ _ => ⟨[], rfl⟩)
    parseOneSnap moveOk [(1, ["f1"])] emptyStore

/-- C7: the parser can raise.  With CPython's actual primitive behaviours —
`strptime` parses the ISO header and rejects the body lines (all as stated
in the hypotheses), and `int(float("inf"))` raises `OverflowError` — the
run of `parse_file` over the text `"2026-02-13 10:00:00\nGames\ninf"`
propagates `OverflowError` instead of skipping the malformed duration,
because lines 92–97 of src/log_parser.py catch only `ValueError`. -/
theorem c7_parser_raises_on_infinite_duration
    (strptime : String → String → Option DTime)
    (floatInt : String → Except PyErr Int)
    (hs1 : strptime "%d %b %Y at %I:%M %p" "2026-02-13 10:00:00" = none)
    (hs2 : strptime "%d %B %Y at %H:%M" "2026-02-13 10:00:00" = none)
    (hs3 : ∃ t, strptime "%Y-%m-%d %H:%M:%S" "2026-02-13 10:00:00" = some t)
    (hg1 : strptime "%d %b %Y at %I:%M %p" "Games" = none)
    (hg2 : strptime "%d %B %Y at %H:%M" "Games" = none)
    (hg3 : strptime "%Y-%m-%d %H:%M:%S" "Games" = none)
    (hi1 : strptime "%d %b %Y at %I:%M %p" "inf" = none)
    (hi2 : strptime "%d %B %Y at %H:%M" "inf" = none)
    (hi3 : strptime "%Y-%m-%d %H:%M:%S" "inf" = none)
    (hf : floatInt "inf" = .error .overflowError) :
    parse_fileE strptime floatInt c7text = .error .overflowError := by
  obtain ⟨t, ht⟩ := hs3
  have hhdr1 : parse_header_date strptime "2026-02-13 10:00:00" = some t := by
    simp only [parse_header_date,
      show (⟨cleanHeaderLine ("2026-02-13 10:00:00" : String).data⟩ : String) =
        "2026-02-13 10:00:00" from by decide, hs1, hs2, ht]
  have hhdr2 : parse_header_date strptime "Games" = none := by
    simp only [parse_header_date,
      show (⟨cleanHeaderLine ("Games" : String).data⟩ : String) = "Games" from
        by decide, hg1, hg2, hg3]
    rw [if_neg (by decide)]
  have hhdr3 : parse_header_date strptime "inf" = none := by
    simp only [parse_header_date,
      show (⟨cleanHeaderLine ("inf" : String).data⟩ : String) = "inf" from
        by decide, hi1, hi2, hi3]
    rw [if_neg (by decide)]
  have hsec : (⟨secondsToken ("inf" : String).data⟩ : String) = "inf" := by
    have h2 : pyReplaceAllL "sec".data [] (pyLowerL ("inf" : String).data) =
        ("inf" : String).data := by
      rw [show pyLowerL ("inf" : String).data = ("inf" : String).data from
        by decide]
      exact pyReplaceAllL_no_occur _ _ _ (by decide)
    simp only [secondsToken, h2]
    decide
  have hchunk : parse_chunkE floatInt ["Games", "inf"] =
      .error .overflowError := by
    simp only [parse_chunkE,
      show String.intercalate "\n" ["Games", "inf"] = "Games\ninf" from
        by decide,
      show splitOnCharL ',' ("Games\ninf" : String).data =
        [("Games\ninf" : String).data] from by decide,
      parseChunkGo,
      show pyStripL ("Games\ninf" : String).data =
        ("Games\ninf" : String).data from by decide,
      show (("Games\ninf" : String).data).isEmpty = false from by decide,
      Bool.false_eq_true, if_false,
      show ((splitOnCharL '\n' ("Games\ninf" : String).data).map
          pyStripL).filter (fun l => !l.isEmpty) =
        [("Games" : String).data, ("inf" : String).data] from by decide,
      hsec, hf]
  have hscan : scanLines strptime floatInt
      ["2026-02-13 10:00:00", "Games", "inf"] none [] [] =
      .error .overflowError := by
    simp only [scanLines, hhdr1, hhdr2, hhdr3, List.nil_append,
      List.cons_append, List.append_nil, hchunk]
  calc parse_fileE strptime floatInt c7text
      = scanLines strptime floatInt ["2026-02-13 10:00:00", "Games", "inf"]
          none [] [] := rfl
    _ = .error .overflowError := hscan

/-- C7 witness: the hypotheses of the failing-input theorem are satisfiable
— instantiating the primitives with `stpWitness` / `floatIntWitness`
exhibits the `OverflowError` escaping `parse_file`. -/
theorem c7_witness :
    parse_fileE stpWitness floatIntWitness c7text = .error .overflowError :=
  c7_parser_raises_on_infinite_duration stpWitness floatIntWitness
    (by decide) (by decide) ⟨⟨20497, 36000⟩, by decide⟩ (by decide) (by decide)
    (by decide) (by decide) (by decide) (by decide) rfl

theorem parseChunkGo_never_raises (floatInt : String → Except PyErr Int)
    (hok : ∀ s, floatInt s ≠ .error .overflowError) :
    ∀ chunks data, ∃ d, parseChunkGo floatInt chunks data = .ok d := by
  intro chunks
  induction chunks with
  | nil => intro data; exact ⟨data, rfl⟩
  | cons ch rest ih =>
      intro data
      simp only [parseChunkGo]
      by_cases he : (pyStripL ch).isEmpty = true
      · rw [if_pos he]; exact ih data
      · rw [if_neg he]
        cases hinner : ((splitOnCharL '\n' (pyStripL ch)).map pyStripL).filter
            (fun l => !l.isEmpty) with
        | nil => exact ih data
        | cons title rest2 =>
            cases rest2 with
            | nil => exact ih data
            | cons sec rest3 =>
                dsimp only
                cases hfl : floatInt ⟨secondsToken sec⟩ with
                | ok n => exact ih _
                | error e =>
                    cases e with
                    | valueError => exact ih data
                    | overflowError => exact absurd hfl (hok _)

theorem scanLines_never_raises (strptime : String → String → Option DTime)
    (floatInt : String → Except PyErr Int)
    (hok : ∀ s, floatInt s ≠ .error .overflowError) :
    ∀ lines cur curLines snaps,
      ∃ r, scanLines strptime floatInt lines cur curLines snaps = .ok r := by
  intro lines
  induction lines with
  | nil =>
      intro cur curLines snaps
      cases cur with
      | none => exact ⟨snaps, rfl⟩
      | some ts =>
          obtain ⟨d, hd⟩ := parseChunkGo_never_raises floatInt hok
            (splitOnCharL ',' (String.intercalate "\n" curLines).data) []
          have hpc : parse_chunkE floatInt curLines = .ok d := hd
          simp only [scanLines, hpc]
          exact ⟨_, rfl⟩
  | cons line rest ih =>
      intro cur curLines snaps
      simp only [scanLines]
      cases parse_header_date strptime line with
      | some ts =>
          cases cur with
          | some pts =>
              obtain ⟨d, hd⟩ := parseChunkGo_never_raises floatInt hok
                (splitOnCharL ',' (String.intercalate "\n" curLines).data) []
              have hpc : parse_chunkE floatInt curLines = .ok d := hd
              rw [hpc]
              exact ih _ _ _
          | none => exact ih _ _ _
      | none =>
          cases cur with
          | some pts => exact ih _ _ _
          | none => exact ih _ _ _

/-- The flip side of the C7 finding: as long as the duration primitive only
fails with `ValueError` (every genuinely malformed-number case), the parser
indeed never raises — the escape requires the OverflowError class. -/
theorem parse_fileE_never_raises (strptime : String → String → Option DTime)
    (floatInt : String → Except PyErr Int)
    (hok : ∀ s, floatInt s ≠ .error .overflowError) (content : String) :
    ∃ r, parse_fileE strptime floatInt content = .ok r := by
  simp only [parse_fileE]
  by_cases hc : (pyStripL content.data).isEmpty = true
  · rw [if_pos hc]; exact ⟨[], rfl⟩
  · rw [if_neg hc]
    exact scanLines_never_raises strptime floatInt hok _ _ _ _
